import Mathlib

/-
Verification of jcblock.py, a junk-call blocker driving an AT modem.

The development shallowly embeds the program:
  - the caller-ID accumulation state machine of main (lines 126-228),
  - the allow/block pattern lists (read_list, update_list_match,
    match_list, match_list_both, purge_list),
  - the user star-key addition branch of main (lines 198-217),
  - Modem.wait_for_star as a step function over a timed byte trace.

External library calls are modelled explicitly:
  - re.compile is an argument of type String -> Option Matcher, where a
    Matcher is the match predicate of the compiled expression (re.error
    on compilation corresponds to none);
  - re.compile(pat, re.IGNORECASE).match(s) for a metacharacter-free
    pattern pat is modelled by reMatchLit: a case-insensitive test that
    s starts with pat, which is exactly the semantics of Python match
    (anchored at the start, not required to consume all of s);
  - time.strftime results are opaque strings; time.mktime(strptime(..))
    is an argument parseT : String -> Int giving seconds; time values
    are integers in seconds;
  - files are lists of newline-stripped line strings (the source strips
    CR and LF from every line it reads before use).
-/

namespace Jcblock

/-- Seconds per day, day_secs = 24*60*60 of the source. -/
def day_secs : Int := 24 * 60 * 60

/-- Model of a compiled regular expression: the truthiness of
re_compiled.match applied to a candidate string. -/
abbrev Matcher := String → Bool

/-- Lower-case a string character-wise, ASCII case folding as applied by
re.IGNORECASE to the plain-text patterns used in the theorems below. -/
def lowerList (s : String) : List Char :=
  s.toList.map Char.toLower

/-- Model of re.compile(pat, re.IGNORECASE).match(s) for a pattern with no
regex metacharacters: true when s starts with pat, ignoring case. -/
def reMatchLit (pat s : String) : Bool :=
  (lowerList pat).isPrefixOf (lowerList s)

/-- Model of str.startswith(pre). -/
def strStarts (pre s : String) : Bool :=
  pre.toList.isPrefixOf s.toList

/-- One entry of an allow/block list: the dictionaries stored in the list
of read_list. The field regex holds the compiled pattern (its match
predicate), the remaining fields mirror the Python keys permanent, note,
timestamp and count. -/
structure Entry where
  regex : Matcher
  permanent : Bool
  note : String
  timestamp : String
  count : Int

/-- An allow/block list: a Python dict from pattern text to Entry, in
insertion order. -/
abbrev PList := List (String × Entry)

/-- Lookup of a pattern key, list[regex] on a hit, none when absent. -/
def lookupKey : PList → String → Option Entry
  | [], _ => none
  | p :: rest, k => if p.1 = k then some p.2 else lookupKey rest k

/-- Membership test, regex in list. -/
def containsKey (l : PList) (k : String) : Bool :=
  l.any (fun p => p.1 == k)

/-- Dict assignment list[k] = e: overwrite in place when the key exists
(Python dicts keep the original insertion position), append otherwise. -/
def dictInsert (l : PList) (k : String) (e : Entry) : PList :=
  if containsKey l k then l.map (fun p => if p.1 = k then (k, e) else p)
  else l ++ [(k, e)]

/-- Dict deletion del list[k]. -/
def dictDelete (l : PList) (k : String) : PList :=
  l.filter (fun p => !(p.1 == k))

/-- In-place update of the timestamp and count fields of the entry at key
k, as done by the match-history overlay of read_list. -/
def dictUpdateTC (l : PList) (k ts : String) (c : Int) : PList :=
  l.map (fun p => if p.1 = k then (p.1, { p.2 with timestamp := ts, count := c }) else p)

/-- Helper of pySplitAll: accumulates the current field (reversed). -/
def pySplitGo (sep : Char) (acc : List Char) : List Char → List String
  | [] => [String.mk acc.reverse]
  | c :: cs =>
    if c = sep then String.mk acc.reverse :: pySplitGo sep [] cs
    else pySplitGo sep (c :: acc) cs

/-- Model of Python str.split(sep) with a one-character separator. -/
def pySplitAll (sep : Char) (s : String) : List String :=
  pySplitGo sep [] s.toList

/-- Helper of pySplitN: n counts the splits still allowed. -/
def pySplitNGo (sep : Char) : Nat → List Char → List Char → List String
  | _, acc, [] => [String.mk acc.reverse]
  | 0, acc, c :: cs => pySplitNGo sep 0 (c :: acc) cs
  | Nat.succ n, acc, c :: cs =>
    if c = sep then String.mk acc.reverse :: pySplitNGo sep n [] cs
    else pySplitNGo sep (Nat.succ n) (c :: acc) cs

/-- Model of Python str.split(sep, maxsplit). -/
def pySplitN (sep : Char) (maxsplit : Nat) (s : String) : List String :=
  pySplitNGo sep maxsplit [] s.toList

/-- Model of str.endswith applied to a single backslash. -/
def endsWithBackslash (s : String) : Bool :=
  s.toList.getLast? == some '\\'

/-- The escaped-semicolon rejoin loop shared by read_list (lines 261-263)
and purge_list (lines 343-345): while the pattern field ends in a
backslash and split fields remain, drop the backslash and glue the next
field back with a semicolon. -/
def rejoinEsc : String → List String → String × List String
  | rx, [] => (rx, [])
  | rx, f :: fs =>
    if endsWithBackslash rx then rejoinEsc (String.mk rx.toList.dropLast ++ ";" ++ f) fs
    else (rx, f :: fs)

/-- Accumulate a decimal digit string into a number; none on the first
non-digit character. -/
def natFromDigits (acc : Nat) : List Char → Option Nat
  | [] => some acc
  | c :: cs =>
    if c.isDigit then natFromDigits (acc * 10 + (c.toNat - 48)) cs
    else none

/-- Model of Python int(s) on a well-formed integer string, an optional
minus sign followed by decimal digits. Malformed strings raise ValueError
in Python and are not exercised by the theorems below; they default to 0
here. -/
def pyInt (s : String) : Int :=
  match s.toList with
  | '-' :: c :: cs =>
    match natFromDigits 0 (c :: cs) with
    | some n => -(n : Int)
    | none => 0
  | cs =>
    match natFromDigits 0 cs with
    | some n => (n : Int)
    | none => 0

/-- Model of the join ";".join(xs). -/
def joinSemi : List String → String
  | [] => ""
  | x :: xs => xs.foldl (fun acc y => acc ++ ";" ++ y) x

/-- Model of the Python membership test c in s for a character and a
string. -/
def strHasChar (c : Char) (s : String) : Bool :=
  s.toList.contains c

/-- One line of the .dat parsing loop of read_list (lines 250-276):
comments and blank patterns are skipped, the escaped-semicolon rejoin is
applied, the pattern is compiled (failures are dropped), flags and note
are taken from the remaining fields, timestamp is the load time and the
count starts at 0. The source compiles the pattern twice (lines 265 and
270) with the same result; compile is a pure function here. -/
def parseDatLine (compile : String → Option Matcher) (now line : String) :
    Option (String × Entry) :=
  if strStarts "#" line then none
  else
    match pySplitAll ';' line with
    | [] => none
    | rx0 :: rest =>
      if rx0 = "" then none
      else
        let rj := rejoinEsc rx0 rest
        match compile rj.1 with
        | none => none
        | some m =>
          let flags := rj.2.headD ""
          some (rj.1,
            { regex := m,
              permanent := strHasChar 'p' flags || strHasChar 'P' flags,
              note := joinSemi rj.2.tail,
              timestamp := now,
              count := 0 })

/-- The .dat reading loop of read_list, building the dict line by line. -/
def readDatGo (compile : String → Option Matcher) (now : String) (l : PList) :
    List String → PList
  | [] => l
  | line :: rest =>
    match parseDatLine compile now line with
    | none => readDatGo compile now l rest
    | some ke => readDatGo compile now (dictInsert l ke.1 ke.2) rest

/-- The first half of read_list: the in-memory list built from the .dat
file alone, before the match-history overlay. -/
def read_list_dat (compile : String → Option Matcher) (now : String)
    (datLines : List String) : PList :=
  readDatGo compile now [] datLines

/-- The pattern key named by a line of the .dat-match file: the line is
split as timestamp;count;regex with str.split(";", 3) and used only when
exactly three fields result (lines 287-295). -/
def matchLineKey (line : String) : Option String :=
  match pySplitN ';' 3 line with
  | [_, _, rx] => some rx
  | _ => none

/-- One line of the match-history overlay of read_list (lines 285-297):
on a three-field line whose pattern is a known key, overwrite that entry
timestamp and count; all other lines are reported invalid and skipped. -/
def applyMatchLine (l : PList) (line : String) : PList :=
  match pySplitN ';' 3 line with
  | [ts, cnt, rx] => if containsKey l rx then dictUpdateTC l rx ts (pyInt cnt) else l
  | _ => l

/-- The match-history overlay loop of read_list. -/
def applyMatchGo (l : PList) : List String → PList
  | [] => l
  | line :: rest => applyMatchGo (applyMatchLine l line) rest

/-- read_list: build the list from the .dat lines, then overlay the
.dat-match lines. A missing match file corresponds to matchLines = []. -/
def read_list (compile : String → Option Matcher) (now : String)
    (datLines matchLines : List String) : PList :=
  applyMatchGo (read_list_dat compile now datLines) matchLines

/-- update_list_match: the lines written to the .dat-match file, one per
entry in map order, timestamp;count;pattern with the pattern text raw. -/
def update_list_match (l : PList) : List String :=
  l.map (fun p => p.2.timestamp ++ ";" ++ toString p.2.count ++ ";" ++ p.1)

/-- match_list: scan entries in map order; on the first entry whose
compiled pattern matches the string, set its timestamp, increment its
count and return true; return false and leave the list unchanged when no
entry matches. The returned list is the mutated dict. -/
def match_list (l : PList) (s ts : String) : Bool × PList :=
  match l with
  | [] => (false, [])
  | (k, e) :: rest =>
    if e.regex s then
      (true, (k, { e with timestamp := ts, count := e.count + 1 }) :: rest)
    else
      let r := match_list rest s ts
      (r.1, (k, e) :: r.2)

/-- match_list_both: try the number, then (short-circuit or) the name
against the same dict. -/
def match_list_both (l : PList) (number name timestamp : String) : Bool × PList :=
  let r1 := match_list l number timestamp
  if r1.1 then (true, r1.2)
  else match_list r1.2 name timestamp

/-- space_fill of the source: s plus one space plus count-len(s)-1 further
spaces; in Python a negative repeat count yields the empty string, which
truncated Nat subtraction reproduces. -/
def space_fill (s : String) (count : Nat) : String :=
  s ++ " " ++ String.mk (List.replicate (count - s.length - 1) ' ')

/-- The call-log line of main (lines 220-222). -/
def mkLog (timestamp number name outcome : String) : String :=
  timestamp ++ "  " ++ space_fill number 12 ++ space_fill name 17 ++ " : " ++ outcome ++ "\n"

/-- A word character of the regex class backslash-w, ASCII reading. -/
def isWordChar (c : Char) : Bool :=
  c.isAlphanum || c == '_'

/-- Model of re.sub applied to a caller-ID line with the pattern of lines
161-170: strip a leading run of word characters, optional whitespace, an
equals sign and optional whitespace; when the pattern does not match the
line is returned unchanged (re.sub with zero matches). -/
def stripTag (line : String) : String :=
  let cs := line.toList
  if cs.takeWhile isWordChar = [] then line
  else
    match (cs.dropWhile isWordChar).dropWhile Char.isWhitespace with
    | [] => line
    | c :: rest =>
      if c = '=' then String.mk (rest.dropWhile Char.isWhitespace) else line

/-- The classification of a modem line by the if/elif chain of main
(lines 154-174), in source order of the startswith tests. -/
inductive LineTag where
  | ring
  | date
  | time
  | nmbr
  | name
  | other
deriving DecidableEq

/-- Which branch of the if/elif chain of main a line takes. -/
def lineTag (line : String) : LineTag :=
  if strStarts "RING" line then .ring
  else if strStarts "DATE" line then .date
  else if strStarts "TIME" line then .time
  else if strStarts "NMBR" line then .nmbr
  else if strStarts "NAME" line then .name
  else .other

/-- The four caller-ID accumulation variables of main: call_date,
call_time, call_number, call_name. -/
structure AccState where
  date : String
  time : String
  number : String
  name : String
deriving DecidableEq

/-- A completed caller-ID record as screened by main. -/
structure CallRecord where
  date : String
  time : String
  number : String
  name : String
deriving DecidableEq

/-- The empty accumulator: the state after the reset of lines 224-227 and
at startup (lines 119-122). -/
def accEmpty : AccState :=
  { date := "", time := "", number := "", name := "" }

/-- One pass of the caller-ID accumulation logic of main (lines 154-177
and the reset of lines 224-227): RING with no date captured is ignored;
DATE, TIME and NMBR store their stripped value; NAME stores its value and
is ignored when no date was captured; any other line is ignored. A RING
or NAME reaching the fall-through completes the record and all four
fields reset. The 7-second new-call log of lines 155-157 only prints. -/
def accStep (s : AccState) (line : String) : Option CallRecord × AccState :=
  match lineTag line with
  | .ring =>
    if s.date = "" then (none, s)
    else (some ⟨s.date, s.time, s.number, s.name⟩, accEmpty)
  | .date => (none, { s with date := stripTag line })
  | .time => (none, { s with time := stripTag line })
  | .nmbr => (none, { s with number := stripTag line })
  | .name =>
    let s2 := { s with name := stripTag line }
    if s2.date = "" then (none, s2)
    else (some ⟨s2.date, s2.time, s2.number, s2.name⟩, accEmpty)
  | .other => (none, s)

/-- Run the accumulator over a line sequence, collecting the records
emitted to the screening section in order. -/
def runAcc (s : AccState) : List String → List CallRecord × AccState
  | [] => ([], s)
  | line :: rest =>
    match accStep s line with
    | (none, s2) => runAcc s2 rest
    | (some r, s2) =>
      let t := runAcc s2 rest
      (r :: t.1, t.2)

/-- The user star-key addition branch of main (lines 198-217), entered
after wait_for_star returned true: the raw caller-ID number is validated
by re.compile; on re.error the candidate is cleared and nothing happens
(the outcome stays at no match); the cleared check also skips an empty
number whose compilation succeeded. On a kept candidate the entry is
inserted into the block dict and one line is appended to the .dat file.
Returns the new block list, the appended .dat lines and the outcome. -/
def add_block_entry (compile : String → Option Matcher) (blocklist : PList)
    (number nowStr : String) : PList × List String × String :=
  match compile number with
  | none => (blocklist, [], "no match")
  | some m =>
    if number = "" then (blocklist, [], "no match")
    else
      (dictInsert blocklist number
        { regex := m, permanent := false, note := "added by user * key",
          timestamp := nowStr, count := 0 },
       [number ++ ";;added by user * key"],
       "added to block by user * key")

/-- The observable effects of the screening section of main on one
completed record. -/
structure ScreenResult where
  outcome : String
  terminated : Bool
  starInvoked : Bool
  allowlist : PList
  blocklist : PList
  blockFileAppend : List String
  logLine : String

/-- The screening section of main (lines 182-222) on one completed
record: allow list first; on an allow miss the block list, whose hit
terminates the call; otherwise wait_for_star is invoked and a star press
runs the user addition branch. Exactly one call-log line is produced.
starPressed is the value wait_for_star returns when invoked; nowStr is
the strftime value used for a user-added entry. The update_list_match
persistence calls of lines 187 and 191 write the returned lists. -/
def screen_call (compile : String → Option Matcher) (allowlist blocklist : PList)
    (number name timestamp nowStr : String) (starPressed : Bool) : ScreenResult :=
  if (match_list_both allowlist number name timestamp).1 then
    { outcome := "allow", terminated := false, starInvoked := false,
      allowlist := (match_list_both allowlist number name timestamp).2,
      blocklist := blocklist, blockFileAppend := [],
      logLine := mkLog timestamp number name "allow" }
  else if (match_list_both blocklist number name timestamp).1 then
    { outcome := "block", terminated := true, starInvoked := false,
      allowlist := (match_list_both allowlist number name timestamp).2,
      blocklist := (match_list_both blocklist number name timestamp).2,
      blockFileAppend := [],
      logLine := mkLog timestamp number name "block" }
  else if starPressed then
    { outcome := (add_block_entry compile (match_list_both blocklist number name timestamp).2 number nowStr).2.2,
      terminated := false, starInvoked := true,
      allowlist := (match_list_both allowlist number name timestamp).2,
      blocklist := (add_block_entry compile (match_list_both blocklist number name timestamp).2 number nowStr).1,
      blockFileAppend := (add_block_entry compile (match_list_both blocklist number name timestamp).2 number nowStr).2.1,
      logLine := mkLog timestamp number name
        (add_block_entry compile (match_list_both blocklist number name timestamp).2 number nowStr).2.2 }
  else
    { outcome := "no match", terminated := false, starInvoked := true,
      allowlist := (match_list_both allowlist number name timestamp).2,
      blocklist := (match_list_both blocklist number name timestamp).2,
      blockFileAppend := [],
      logLine := mkLog timestamp number name "no match" }

/-- The pattern text recomputed from a raw .dat line by purge_list (lines
338-345): comment lines yield none, other lines are split on semicolons
and the escaped-semicolon rejoin is applied. The empty-list arm of the
match is unreachable, a split always yields at least one field. -/
def purgePattern (line : String) : Option String :=
  if strStarts "#" line then none
  else
    match pySplitAll ';' line with
    | [] => none
    | rx0 :: rest => some (rejoinEsc rx0 rest).1

/-- The staleness test of purge_list line 351 on the stored timestamp of
an entry, with parseT modelling time.mktime(time.strptime(.., fmt)). -/
def expiredEntry (parseT : String → Int) (now lifetimeDays : Int) (e : Entry) : Prop :=
  now - parseT e.timestamp > lifetimeDays * day_secs

instance (parseT : String → Int) (now lifetimeDays : Int) (e : Entry) :
    Decidable (expiredEntry parseT now lifetimeDays e) :=
  inferInstanceAs (Decidable (now - parseT e.timestamp > lifetimeDays * day_secs))

/-- One raw line of the purge loop (lines 337-358): a non-comment line
whose pattern is a present, non-permanent, stale entry is commented out
with the last-match annotation and the entry is deleted from the dict;
every other line is kept as is. Returns the new dict, the output line and
whether this line changed. -/
def purgeStep (parseT : String → Int) (now lifetimeDays : Int) (l : PList)
    (line : String) : PList × String × Bool :=
  match purgePattern line with
  | none => (l, line, false)
  | some rx =>
    match lookupKey l rx with
    | none => (l, line, false)
    | some e =>
      if e.permanent = false ∧ expiredEntry parseT now lifetimeDays e then
        (dictDelete l rx,
         "# last blocked on " ++ e.timestamp ++ " count " ++ toString e.count ++ " #" ++ line,
         true)
      else (l, line, false)

/-- The purge loop over all raw file lines, accumulating the new file
contents and the file_changed flag. -/
def purgeGo (parseT : String → Int) (now lifetimeDays : Int) :
    PList → List String → PList × List String × Bool
  | l, [] => (l, [], false)
  | l, line :: rest =>
    let s := purgeStep parseT now lifetimeDays l line
    let r := purgeGo parseT now lifetimeDays s.1 rest
    (r.1, s.2.1 :: r.2.1, s.2.2 || r.2.2)

/-- The outcome of purge_list: the dict after deletions, the .dat file
lines after the run, and whether the file was rewritten. -/
structure PurgeResult where
  list : PList
  fileLines : List String
  changed : Bool

/-- purge_list (lines 328-370): scan the raw .dat lines against the dict;
when at least one line changed, the old file is renamed to the -backup
file (overwriting a prior backup) and the collected contents are written
as the new .dat file, reported here as changed = true with the new lines;
otherwise the file keeps its original lines and no backup is touched. -/
def purge_list (parseT : String → Int) (now : Int) (l : PList)
    (fileLines : List String) (lifetimeDays : Int) : PurgeResult :=
  let r := purgeGo parseT now lifetimeDays l fileLines
  { list := r.1,
    fileLines := if r.2.2 then r.2.1 else fileLines,
    changed := r.2.2 }

/-- The DTMF star marker of wait_for_star: DLE / DLE * DLE tilde. -/
def starBytes : List Nat := [16, 47, 16, 42, 16, 126]

/-- Ring voltage marker DLE R. -/
def ringBytes1 : List Nat := [16, 82]

/-- Ring tone marker DLE r. -/
def ringBytes2 : List Nat := [16, 114]

/-- Model of the Python bytes containment test pat in buf for a nonempty
pattern: true when pat occurs as a contiguous run in buf. -/
def containsSeq (pat : List Nat) : List Nat → Bool
  | [] => pat.isEmpty
  | b :: rest => pat.isPrefixOf (b :: rest) || containsSeq pat rest

/-- Model of bytes.replace for a two-byte pattern and empty replacement:
remove every non-overlapping occurrence of the pair a b, left to right. -/
def removeSeq2 (a b : Nat) : List Nat → List Nat
  | [] => []
  | [x] => [x]
  | x :: y :: rest =>
    if x = a ∧ y = b then removeSeq2 a b rest
    else x :: removeSeq2 a b (y :: rest)

/-- One loop iteration of wait_for_star as observed from outside: tCond is
the time.monotonic value at the while condition, bytes is the result of
self.read(1) with its 1-second timeout (none on timeout), tRing the
time.monotonic value stored into last_ring when a ring marker is seen. -/
structure StarEvent where
  tCond : Int
  bytes : Option Nat
  tRing : Int
deriving DecidableEq

/-- The loop state of wait_for_star: the accumulated buffer and the time
of the last observed ring artifact. -/
structure StarState where
  readBytes : List Nat
  lastRing : Int
deriving DecidableEq

/-- The newline handling of wait_for_star (lines 410-414): a newline byte
in the buffer forces a voice-mode re-init and clears the buffer; the
re-init commands have no further observable effect here. -/
def starAfterNl (buf : List Nat) : List Nat :=
  if buf.contains 10 then [] else buf

/-- The ring stripping of wait_for_star (lines 417-418): remove the DLE R
occurrences first, then the DLE r occurrences. -/
def starStripRings (buf : List Nat) : List Nat :=
  removeSeq2 16 114 (removeSeq2 16 82 buf)

/-- The body of the wait_for_star loop (lines 409-419): append the read
byte, apply the newline handling, and when a ring marker is present strip
the ring markers and reset the ring clock. -/
def starStep (st : StarState) (ev : StarEvent) : StarState :=
  let buf2 := starAfterNl (st.readBytes ++ ev.bytes.toList)
  if containsSeq ringBytes1 buf2 || containsSeq ringBytes2 buf2 then
    { readBytes := starStripRings buf2, lastRing := ev.tRing }
  else
    { readBytes := buf2, lastRing := st.lastRing }

/-- The while loop of wait_for_star (line 408): before each read the
condition requires under 10 seconds since the last ring artifact and no
star marker in the buffer; the loop stops as soon as it fails. A trace
shorter than the loop demands leaves the state as is. -/
def waitForStarGo : StarState → List StarEvent → StarState
  | st, [] => st
  | st, ev :: evs =>
    if ev.tCond - st.lastRing < 10 ∧ containsSeq starBytes st.readBytes = false then
      waitForStarGo (starStep st ev) evs
    else st

/-- Modem.wait_for_star (lines 396-423) over a timed trace of reads
starting at monotonic time t0 (the initial last_ring of line 407): the
return value is the final star-marker containment test of line 423. The
surrounding AT commands and the timeout restore only drive the modem. -/
def wait_for_star (t0 : Int) (evs : List StarEvent) : Bool :=
  containsSeq starBytes (waitForStarGo { readBytes := [], lastRing := t0 } evs).readBytes

/-- Convenience constructor for a trace event whose condition check and
potential ring reset happen at the same whole second. -/
def mkEv (t : Int) (b : Option Nat) : StarEvent :=
  { tCond := t, bytes := b, tRing := t }

/-- True when the event carries no DTMF star byte (byte 42, the asterisk
at the centre of the star marker); timeouts carry none. -/
def noStarByte (ev : StarEvent) : Bool :=
  match ev.bytes with
  | none => true
  | some b => b != 42

/-- The invariant of claim C9: every entry of the in-memory dict has a
pattern text that compiles (to the stored matcher or otherwise). -/
def listWF (compile : String → Option Matcher) (l : PList) : Prop :=
  ∀ k e, (k, e) ∈ l → ∃ m, compile k = some m

/-- A concrete model of re.compile for evaluation: every pattern compiles
to its literal start-anchored case-insensitive matcher. -/
def cmpAll : String → Option Matcher :=
  fun p => some (reMatchLit p)

/-- A concrete model of re.compile under which the single pattern ( fails
to compile, as re.compile of an unbalanced parenthesis raises re.error in
Python, and every other pattern compiles literally. -/
def cmpOpen : String → Option Matcher :=
  fun p => if p = "(" then none else some (reMatchLit p)

/-- A block entry for the pattern ^555: since Python match is anchored,
the compiled form matches exactly the strings starting with 555. -/
def e555 : Entry :=
  { regex := reMatchLit "555", permanent := false, note := "",
    timestamp := "2021-01-01 00:00", count := 0 }

/-- An allow entry matching numbers that start with 5. -/
def eAllow5 : Entry :=
  { regex := reMatchLit "5", permanent := false, note := "",
    timestamp := "2021-01-01 00:00", count := 0 }

/-- An entry whose pattern abc matches case-insensitively at the start. -/
def eAbc : Entry :=
  { regex := reMatchLit "abc", permanent := false, note := "",
    timestamp := "t0", count := 4 }

/-- An entry whose pattern zed does not match the candidates used below. -/
def eZed : Entry :=
  { regex := reMatchLit "zed", permanent := false, note := "",
    timestamp := "t0", count := 1 }

/-- A stale non-permanent entry (timestamp second 0, count 3). -/
def eOld : Entry :=
  { regex := reMatchLit "old", permanent := false, note := "x",
    timestamp := "0", count := 3 }

/-- A stale but permanent entry. -/
def eKeep : Entry :=
  { regex := reMatchLit "keep", permanent := true, note := "y",
    timestamp := "0", count := 1 }

/-- A fresh non-permanent entry (timestamp second 100000). -/
def eNew : Entry :=
  { regex := reMatchLit "new", permanent := false, note := "z",
    timestamp := "100000", count := 0 }

/-- A concrete block list holding a stale entry, a permanent stale entry
and a fresh entry, with timestamps that pyInt reads as seconds. -/
def lC5 : PList :=
  [("old", eOld), ("keep", eKeep), ("new", eNew)]

/-- The .dat file lines behind lC5, plus a comment line. -/
def fC5 : List String :=
  ["# header", "old;;x", "keep; p ;y", "new;;z"]

/-- The freshly loaded entry of the .dat line num;;n at load time 7. -/
def eNum : Entry :=
  { regex := reMatchLit "num", permanent := false, note := "n",
    timestamp := "7", count := 0 }

/-- The pattern containing a semicolon used for the round-trip theorems,
written a backslash-semicolon b in its .dat line. -/
def semiPattern : String := "a" ++ String.mk ['\\'] ++ ";b;;note"

/-- A star-detector trace: ring artifacts at seconds 5, 12 and 19 keep the
window alive, then the six star-marker bytes arrive at seconds 25-27,
after more than 10 seconds of absolute time but always within 10 seconds
of the last ring. -/
def evsStarLate : List StarEvent :=
  [mkEv 5 (some 16), mkEv 5 (some 82), mkEv 12 (some 16), mkEv 12 (some 82),
   mkEv 19 (some 16), mkEv 19 (some 82), mkEv 25 (some 16), mkEv 25 (some 47),
   mkEv 26 (some 16), mkEv 26 (some 42), mkEv 27 (some 16), mkEv 27 (some 126)]

/-- A star-detector trace whose star bytes only start arriving at second
10, exactly when the deadline (with no prior ring) has already passed. -/
def evsTooLate : List StarEvent :=
  [mkEv 10 (some 16), mkEv 10 (some 47), mkEv 11 (some 16), mkEv 11 (some 42),
   mkEv 12 (some 16), mkEv 12 (some 126)]

/-- A star-detector trace carrying only ring artifacts and timeouts for
more than 10 seconds, and never a star byte. -/
def evsRingsOnly : List StarEvent :=
  [mkEv 3 (some 16), mkEv 3 (some 82), mkEv 6 (some 16), mkEv 6 (some 114),
   mkEv 9 (some 16), mkEv 9 (some 82), mkEv 13 none, mkEv 14 none]

/-- C1: records are completed by exactly the NAME-after-date and
RING-after-date paths. Every emission resets all four fields; an emission
happens only at a RING or NAME line with a date already captured, and
always does at such a line; with no date captured no line emits; the
sequence DATE,TIME,NMBR,NAME yields exactly one record, the sequence
DATE,TIME,NMBR,RING yields exactly one record at the RING, and NAME or
RING alone emit nothing. -/
theorem c1_record_completion :
    (∀ s line r s2, accStep s line = (some r, s2) →
      s2 = accEmpty ∧ (lineTag line = .ring ∨ lineTag line = .name) ∧ s.date ≠ "") ∧
    (∀ s line, (lineTag line = .ring ∨ lineTag line = .name) → s.date ≠ "" →
      (accStep s line).1.isSome = true) ∧
    (∀ s line, s.date = "" → (accStep s line).1 = none) ∧
    runAcc accEmpty ["DATE=1006", "TIME=1701", "NMBR=5551234", "NAME=JOHN SMITH"] =
      ([⟨"1006", "1701", "5551234", "JOHN SMITH"⟩], accEmpty) ∧
    runAcc accEmpty ["DATE=1006", "TIME=1701", "NMBR=5551234", "RING"] =
      ([⟨"1006", "1701", "5551234", ""⟩], accEmpty) ∧
    runAcc accEmpty ["NAME=JOHN"] = ([], ⟨"", "", "", "JOHN"⟩) ∧
    runAcc accEmpty ["RING"] = ([], accEmpty) := by
  refine ⟨?_, ?_, ?_, by decide, by decide, by decide, by decide⟩
  · intro s line r s2 h
    cases htag : lineTag line <;> simp only [accStep, htag] at h
    · by_cases hd : s.date = "" <;> simp [hd] at h
      exact ⟨h.2.symm, Or.inl rfl, hd⟩
    · exact absurd h (by simp)
    · exact absurd h (by simp)
    · exact absurd h (by simp)
    · by_cases hd : s.date = "" <;> simp [hd] at h
      exact ⟨h.2.symm, Or.inr rfl, hd⟩
    · exact absurd h (by simp)
  · intro s line htag hd
    rcases htag with htag | htag <;> simp [accStep, htag, hd]
  · intro s line hd
    cases htag : lineTag line <;> simp [accStep, htag, hd]

/-- C7 is refuted: a RING arriving after a date was captured does emit a
record, the second completion path of the accumulator. -/
theorem c7_ring_emits_counterexample :
    (accStep { date := "1006", time := "", number := "", name := "" } "RING").1 =
      some ⟨"1006", "", "", ""⟩ := by
  decide

/-- C7 amended: a RING with no date captured is ignored, while a RING
after a captured date completes and emits the in-flight record (so NAME
is not the only finalizing line). -/
theorem c7_ring_completion_amended :
    ∀ s line, lineTag line = .ring →
      (s.date = "" → accStep s line = (none, s)) ∧
      (s.date ≠ "" → accStep s line = (some ⟨s.date, s.time, s.number, s.name⟩, accEmpty)) := by
  intro s line htag
  constructor
  · intro hd; simp [accStep, htag, hd]
  · intro hd; simp [accStep, htag, hd]

/-- Witness for the amended C7 at concrete inputs. -/
theorem c7_ring_completion_amended_witness :
    accStep accEmpty "RING" = (none, accEmpty) ∧
    accStep { date := "1006", time := "", number := "", name := "" } "RING" =
      (some ⟨"1006", "", "", ""⟩, accEmpty) := by
  constructor
  · exact (c7_ring_completion_amended accEmpty "RING" (by decide)).1 rfl
  · exact (c7_ring_completion_amended _ "RING" (by decide)).2 (by decide)

/-- Witness for C1 at concrete inputs: an emitting step resets the state
and is a NAME line with a date captured; a RING line with a date captured
emits. -/
theorem c1_record_completion_witness :
    (accEmpty = accEmpty ∧
      (lineTag "NAME=JOHN" = .ring ∨ lineTag "NAME=JOHN" = .name) ∧
      ("1006" : String) ≠ "") ∧
    (accStep { date := "1006", time := "1701", number := "5551234", name := "" } "RING").1.isSome = true := by
  constructor
  · exact c1_record_completion.1
      { date := "1006", time := "1701", number := "5551234", name := "" }
      "NAME=JOHN" ⟨"1006", "1701", "5551234", "JOHN"⟩ accEmpty (by decide)
  · exact c1_record_completion.2.1
      { date := "1006", time := "1701", number := "5551234", name := "" }
      "RING" (Or.inl (by decide)) (by decide)

/-- C4: match_list returns true exactly when some entry of the dict
matches the candidate; a miss leaves the dict unchanged; the first
matching entry in map order, and only it, gets the supplied timestamp and
an incremented count; and the literal-pattern matcher is case-insensitive
and anchored at the start of the candidate: abc matches ABCDEF and not
xabc. -/
theorem c4_match_list_first_hit :
    (∀ (l : PList) s ts, (match_list l s ts).1 = true ↔ ∃ p ∈ l, p.2.regex s = true) ∧
    (∀ (l : PList) s ts, (match_list l s ts).1 = false → (match_list l s ts).2 = l) ∧
    (∀ (l1 : PList) k e (l2 : PList) s ts,
      l1.all (fun p => !(p.2.regex s)) = true → e.regex s = true →
      match_list (l1 ++ (k, e) :: l2) s ts =
        (true, l1 ++ (k, { e with timestamp := ts, count := e.count + 1 }) :: l2)) ∧
    reMatchLit "abc" "ABCDEF" = true ∧ reMatchLit "abc" "xabc" = false := by
  refine ⟨?_, ?_, ?_, by decide, by decide⟩
  · intro l s ts
    induction l with
    | nil => simp [match_list]
    | cons p rest ih =>
      obtain ⟨k, e⟩ := p
      by_cases h : e.regex s
      · simp [match_list, h]
      · simp only [Bool.not_eq_true] at h
        simp [match_list, h, ih]
  · intro l s ts
    induction l with
    | nil => simp [match_list]
    | cons p rest ih =>
      obtain ⟨k, e⟩ := p
      by_cases h : e.regex s
      · simp [match_list, h]
      · simp only [Bool.not_eq_true] at h
        intro hf
        simp only [match_list, h, Bool.false_eq_true, if_false] at hf ⊢
        simp [ih hf]
  · intro l1 k e l2 s ts hall he
    induction l1 with
    | nil => simp [match_list, he]
    | cons q rest ih =>
      simp only [List.all_cons, Bool.and_eq_true, Bool.not_eq_eq_eq_not, Bool.not_true] at hall
      obtain ⟨hq, hrest⟩ := hall
      simp only [List.cons_append, match_list, hq, Bool.false_eq_true, if_false]
      simp [ih hrest]

/-- Witness for C4 at concrete inputs: the first matching entry is
updated past a non-matching one, and a miss leaves the list unchanged. -/
theorem c4_match_list_first_hit_witness :
    match_list [("zed", eZed), ("abc", eAbc)] "ABCDEF" "t1" =
      (true, [("zed", eZed), ("abc", { eAbc with timestamp := "t1", count := eAbc.count + 1 })]) ∧
    (match_list [("zed", eZed)] "ABCDEF" "t1").2 = [("zed", eZed)] := by
  constructor
  · exact c4_match_list_first_hit.2.2.1 [("zed", eZed)] "abc" eAbc [] "ABCDEF" "t1"
      (by decide) (by decide)
  · exact c4_match_list_first_hit.2.1 [("zed", eZed)] "ABCDEF" "t1" (by decide)

/-- C2: the screening section tries the allow list first; the call is
terminated exactly when the allow list missed and the block list hit (an
allow hit never terminates); the star-key detector is invoked exactly
when neither list hit; exactly one call-log line is produced, carrying
the timestamp, the padded number and name and the outcome; an allow hit
logs allow, a block hit after an allow miss logs block; and the concrete
^555 block entry terminates the number 5551234 with outcome block. -/
theorem c2_screening_order :
    (∀ compile (allowlist blocklist : PList) number name timestamp nowStr starPressed,
      (screen_call compile allowlist blocklist number name timestamp nowStr starPressed).terminated =
        (!(match_list_both allowlist number name timestamp).1 &&
          (match_list_both blocklist number name timestamp).1) ∧
      (screen_call compile allowlist blocklist number name timestamp nowStr starPressed).starInvoked =
        (!(match_list_both allowlist number name timestamp).1 &&
          !(match_list_both blocklist number name timestamp).1) ∧
      ((match_list_both allowlist number name timestamp).1 = true →
        (screen_call compile allowlist blocklist number name timestamp nowStr starPressed).outcome = "allow") ∧
      ((match_list_both allowlist number name timestamp).1 = false →
        (match_list_both blocklist number name timestamp).1 = true →
        (screen_call compile allowlist blocklist number name timestamp nowStr starPressed).outcome = "block") ∧
      (screen_call compile allowlist blocklist number name timestamp nowStr starPressed).logLine =
        mkLog timestamp number name
          (screen_call compile allowlist blocklist number name timestamp nowStr starPressed).outcome) ∧
    (screen_call cmpAll [] [("^555", e555)] "5551234" "SPAM CO" "2021-10-06 17:01" "x" false).terminated = true ∧
    (screen_call cmpAll [] [("^555", e555)] "5551234" "SPAM CO" "2021-10-06 17:01" "x" false).outcome = "block" ∧
    (screen_call cmpAll [] [("^555", e555)] "5551234" "SPAM CO" "2021-10-06 17:01" "x" false).logLine =
      "2021-10-06 17:01  5551234     SPAM CO           : block\n" := by
  refine ⟨?_, by decide, by decide, by decide⟩
  intro compile allowlist blocklist number name timestamp nowStr starPressed
  cases hA : (match_list_both allowlist number name timestamp).1
  · cases hB : (match_list_both blocklist number name timestamp).1
    · cases starPressed <;> simp [screen_call, hA, hB]
    · simp [screen_call, hA, hB]
  · simp [screen_call, hA]

/-- Witness for C2 at concrete inputs: an allow hit yields outcome allow,
an allow miss with a block hit yields outcome block. -/
theorem c2_screening_order_witness :
    (screen_call cmpAll [("^5", eAllow5)] [] "5551234" "JOHN" "t" "n" false).outcome = "allow" ∧
    (screen_call cmpAll [] [("^555", e555)] "5551234" "JOHN" "t" "n" false).outcome = "block" := by
  constructor
  · exact (c2_screening_order.1 cmpAll [("^5", eAllow5)] [] "5551234" "JOHN" "t" "n" false).2.2.1
      (by decide)
  · exact (c2_screening_order.1 cmpAll [] [("^555", e555)] "5551234" "JOHN" "t" "n" false).2.2.2.1
      (by decide) (by decide)

/-- C3 is refuted by the code: for the pattern a;b (written with an
escaped semicolon in its .dat line), update_list_match writes the line
timestamp;2;a;b, but the reader splits it with maxsplit 3 into four
fields and rejects it as invalid, so the reloaded entry keeps the fresh
load timestamp and count 0 instead of the persisted history. A pattern
without semicolons round-trips, isolating the divergence to the
embedded-semicolon case the claim asserts. -/
theorem c3_match_history_roundtrip_bug :
    update_list_match [("a;b", ⟨reMatchLit "a;b", false, "note", "2021-10-06 17:01", 2⟩)] =
      ["2021-10-06 17:01;2;a;b"] ∧
    pySplitN ';' 3 "2021-10-06 17:01;2;a;b" = ["2021-10-06 17:01", "2", "a", "b"] ∧
    (lookupKey (read_list cmpAll "2021-11-01 09:00" [semiPattern]
        (update_list_match [("a;b", ⟨reMatchLit "a;b", false, "note", "2021-10-06 17:01", 2⟩)])) "a;b").map
      (fun e => (e.timestamp, e.count)) = some ("2021-11-01 09:00", 0) ∧
    (lookupKey (read_list cmpAll "2021-11-01 09:00" ["ab;;note"]
        (update_list_match [("ab", ⟨reMatchLit "ab", false, "note", "2021-10-06 17:01", 2⟩)])) "ab").map
      (fun e => (e.timestamp, e.count)) = some ("2021-10-06 17:01", 2) := by
  refine ⟨by decide, by decide, by decide, by decide⟩

/-- A successful lookup is a membership. -/
theorem lookupKey_mem : ∀ {l : PList} {k : String} {e : Entry},
    lookupKey l k = some e → (k, e) ∈ l
  | [], k, e, h => by simp [lookupKey] at h
  | p :: rest, k, e, h => by
    simp only [lookupKey] at h
    split at h
    · rename_i heq
      obtain ⟨a, b⟩ := p
      simp only at heq
      injection h with hbe
      subst heq hbe
      exact List.mem_cons_self _ _
    · exact List.mem_cons_of_mem _ (lookupKey_mem h)

/-- Lookup after a dict deletion: the deleted key is gone, the others are
untouched. -/
theorem lookupKey_dictDelete : ∀ (l : PList) (k k2 : String),
    lookupKey (dictDelete l k) k2 = if k2 = k then none else lookupKey l k2
  | [], k, k2 => by simp [dictDelete, lookupKey]
  | p :: rest, k, k2 => by
    by_cases hpk : p.1 = k
    · have hbeq : (p.1 == k) = true := by simpa using hpk
      have hstep : dictDelete (p :: rest) k = dictDelete rest k := by
        simp [dictDelete, List.filter, hbeq]
      rw [hstep, lookupKey_dictDelete rest k k2]
      by_cases hk2 : k2 = k
      · simp [hk2]
      · have hpk2 : ¬ p.1 = k2 := fun hh => hk2 (by rw [← hh, hpk])
        simp [hk2, lookupKey, hpk2]
    · have hbeq : (p.1 == k) = false := by simpa using hpk
      have hstep : dictDelete (p :: rest) k = p :: dictDelete rest k := by
        simp [dictDelete, List.filter, hbeq]
      rw [hstep]
      by_cases hpk2 : p.1 = k2
      · have hk2 : ¬ k2 = k := fun hh => hpk (by rw [hpk2, hh])
        simp [lookupKey, hpk2, hk2]
      · simp only [lookupKey, hpk2, if_false]
        exact lookupKey_dictDelete rest k k2

/-- The two possible outcomes of a purge step on one raw line: either the
line and dict are kept as they are, or the pattern of the line is a
present non-permanent stale entry, the entry is deleted and the line is
commented out. -/
theorem purgeStep_cases (parseT : String → Int) (now lt : Int) (l : PList) (line : String) :
    purgeStep parseT now lt l line = (l, line, false) ∨
    ∃ rx e, purgePattern line = some rx ∧ lookupKey l rx = some e ∧
      e.permanent = false ∧ expiredEntry parseT now lt e ∧
      purgeStep parseT now lt l line =
        (dictDelete l rx,
         "# last blocked on " ++ e.timestamp ++ " count " ++ toString e.count ++ " #" ++ line,
         true) := by
  unfold purgeStep
  split
  · exact Or.inl rfl
  · rename_i rx heq
    split
    · exact Or.inl rfl
    · rename_i e heq2
      split
      · rename_i hcond
        exact Or.inr ⟨rx, e, heq, heq2, hcond.1, hcond.2, rfl⟩
      · exact Or.inl rfl

/-- An entry that is permanent or not stale survives the whole purge loop
unchanged. -/
theorem purgeGo_keep (parseT : String → Int) (now lt : Int) :
    ∀ (lines : List String) (l : PList) (k : String) (e : Entry),
      lookupKey l k = some e →
      (e.permanent = true ∨ ¬ expiredEntry parseT now lt e) →
      lookupKey (purgeGo parseT now lt l lines).1 k = some e
  | [], l, k, e, h, _ => by simpa [purgeGo] using h
  | line :: rest, l, k, e, h, hcond => by
    rcases purgeStep_cases parseT now lt l line with hs | ⟨rx, e2, _, hlook, hperm, hexp, hs⟩
    · simp only [purgeGo, hs]
      exact purgeGo_keep parseT now lt rest l k e h hcond
    · simp only [purgeGo, hs]
      apply purgeGo_keep parseT now lt rest (dictDelete l rx) k e ?_ hcond
      rw [lookupKey_dictDelete]
      by_cases hk : k = rx
      · exfalso
        subst hk
        rw [h] at hlook
        injection hlook with he2
        subst he2
        rcases hcond with hp | hx
        · rw [hp] at hperm; exact absurd hperm (by decide)
        · exact hx hexp
      · simpa [hk] using h

/-- An absent key stays absent through the purge loop. -/
theorem purgeGo_none (parseT : String → Int) (now lt : Int) :
    ∀ (lines : List String) (l : PList) (k : String),
      lookupKey l k = none → lookupKey (purgeGo parseT now lt l lines).1 k = none
  | [], l, k, h => by simpa [purgeGo] using h
  | line :: rest, l, k, h => by
    rcases purgeStep_cases parseT now lt l line with hs | ⟨rx, e2, _, _, _, _, hs⟩
    · simp only [purgeGo, hs]
      exact purgeGo_none parseT now lt rest l k h
    · simp only [purgeGo, hs]
      apply purgeGo_none parseT now lt rest (dictDelete l rx) k
      rw [lookupKey_dictDelete]
      by_cases hk : k = rx <;> simp [hk, h]

/-- After the purge loop a present entry either survives exactly as it
was, or is gone and then it was non-permanent and stale. -/
theorem purgeGo_lookup_cases (parseT : String → Int) (now lt : Int) :
    ∀ (lines : List String) (l : PList) (k : String) (e : Entry),
      lookupKey l k = some e →
      lookupKey (purgeGo parseT now lt l lines).1 k = some e ∨
      (lookupKey (purgeGo parseT now lt l lines).1 k = none ∧
        e.permanent = false ∧ expiredEntry parseT now lt e)
  | [], l, k, e, h => by left; simpa [purgeGo] using h
  | line :: rest, l, k, e, h => by
    rcases purgeStep_cases parseT now lt l line with hs | ⟨rx, e2, _, hlook, hperm, hexp, hs⟩
    · simp only [purgeGo, hs]
      exact purgeGo_lookup_cases parseT now lt rest l k e h
    · simp only [purgeGo, hs]
      by_cases hk : k = rx
      · subst hk
        rw [h] at hlook
        injection hlook with he2
        subst he2
        right
        refine ⟨?_, hperm, hexp⟩
        apply purgeGo_none parseT now lt rest
        rw [lookupKey_dictDelete]
        simp
      · have h2 : lookupKey (dictDelete l rx) k = some e := by
          rw [lookupKey_dictDelete]; simpa [hk] using h
        exact purgeGo_lookup_cases parseT now lt rest (dictDelete l rx) k e h2

/-- A present, non-permanent, stale entry whose pattern occurs on some
processed raw line is removed by the purge loop. -/
theorem purgeGo_removes (parseT : String → Int) (now lt : Int) :
    ∀ (lines : List String) (l : PList) (k : String) (e : Entry),
      lookupKey l k = some e → e.permanent = false → expiredEntry parseT now lt e →
      (∃ line ∈ lines, purgePattern line = some k) →
      lookupKey (purgeGo parseT now lt l lines).1 k = none
  | [], _, _, _, _, _, _, hex => by simp at hex
  | line :: rest, l, k, e, h, hperm, hexp, hex => by
    by_cases hpk : purgePattern line = some k
    · have hs1 : (purgeStep parseT now lt l line).1 = dictDelete l k := by
        simp [purgeStep, hpk, h, hperm, hexp]
      simp only [purgeGo]
      rw [hs1]
      apply purgeGo_none parseT now lt rest
      rw [lookupKey_dictDelete]
      simp
    · rcases hex with ⟨line2, hmem, hpat2⟩
      rcases List.mem_cons.mp hmem with rfl | hmem2
      · exact absurd hpat2 hpk
      rcases purgeStep_cases parseT now lt l line with hs | ⟨rx, e2, hpat, hlook, hperm2, hexp2, hs⟩
      · simp only [purgeGo, hs]
        exact purgeGo_removes parseT now lt rest l k e h hperm hexp ⟨line2, hmem2, hpat2⟩
      · have hrxk : ¬ k = rx := fun hk => hpk (by rw [hk]; exact hpat)
        have h2 : lookupKey (dictDelete l rx) k = some e := by
          rw [lookupKey_dictDelete]; simpa [hrxk] using h
        simp only [purgeGo, hs]
        exact purgeGo_removes parseT now lt rest (dictDelete l rx) k e h2 hperm hexp
          ⟨line2, hmem2, hpat2⟩

/-- When the purge loop reports no change, the dict and the file lines
come out exactly as they went in. -/
theorem purgeGo_nochange (parseT : String → Int) (now lt : Int) :
    ∀ (lines : List String) (l : PList),
      (purgeGo parseT now lt l lines).2.2 = false →
      (purgeGo parseT now lt l lines).1 = l ∧ (purgeGo parseT now lt l lines).2.1 = lines
  | [], l, _ => by simp [purgeGo]
  | line :: rest, l, h => by
    rcases purgeStep_cases parseT now lt l line with hs | ⟨rx, e2, _, _, _, _, hs⟩
    · simp only [purgeGo, hs] at h ⊢
      simp only [Bool.false_or] at h
      obtain ⟨h1, h2⟩ := purgeGo_nochange parseT now lt rest l h
      simp [h1, h2]
    · simp only [purgeGo, hs] at h
      simp at h

/-- When the purge loop reports a change, some present entry was stale and
non-permanent. -/
theorem purgeGo_changed_sound (parseT : String → Int) (now lt : Int) :
    ∀ (lines : List String) (l : PList),
      (purgeGo parseT now lt l lines).2.2 = true →
      ∃ k e, lookupKey l k = some e ∧ e.permanent = false ∧ expiredEntry parseT now lt e
  | [], l, h => by simp [purgeGo] at h
  | line :: rest, l, h => by
    rcases purgeStep_cases parseT now lt l line with hs | ⟨rx, e2, _, hlook, hperm, hexp, _⟩
    · simp only [purgeGo, hs] at h
      simp only [Bool.false_or] at h
      exact purgeGo_changed_sound parseT now lt rest l h
    · exact ⟨rx, e2, hlook, hperm, hexp⟩

/-- A present, non-permanent, stale entry with an occurring line forces
the change flag. -/
theorem purgeGo_changed_complete (parseT : String → Int) (now lt : Int)
    (lines : List String) (l : PList) (k : String) (e : Entry)
    (h : lookupKey l k = some e) (hperm : e.permanent = false)
    (hexp : expiredEntry parseT now lt e)
    (hex : ∃ line ∈ lines, purgePattern line = some k) :
    (purgeGo parseT now lt l lines).2.2 = true := by
  by_contra hch
  have hch2 : (purgeGo parseT now lt l lines).2.2 = false := by
    simpa using hch
  have hfix := (purgeGo_nochange parseT now lt lines l hch2).1
  have hrem := purgeGo_removes parseT now lt lines l k e h hperm hexp hex
  rw [hfix, h] at hrem
  cases hrem

/-- C5: purge leaves permanent entries untouched regardless of age,
removes exactly the non-permanent entries whose elapsed time since their
stored timestamp exceeds the lifetime, and rewrites the file (renaming
the old one to the backup) exactly when at least one entry was removed;
with no removal the dict and the file are left untouched. The hypothesis
says each in-memory key occurs on some non-comment line of the file, as
load and append guarantee. -/
theorem c5_purge_policy :
    ∀ (parseT : String → Int) (now : Int) (l : PList) (fileLines : List String) (lt : Int),
      (∀ p ∈ l, ∃ line ∈ fileLines, purgePattern line = some p.1) →
      (∀ k e, lookupKey l k = some e → e.permanent = true →
        lookupKey (purge_list parseT now l fileLines lt).list k = some e) ∧
      (∀ k e, lookupKey l k = some e →
        (lookupKey (purge_list parseT now l fileLines lt).list k = none ↔
          e.permanent = false ∧ expiredEntry parseT now lt e)) ∧
      ((purge_list parseT now l fileLines lt).changed = true ↔
        ∃ k e, lookupKey l k = some e ∧ e.permanent = false ∧ expiredEntry parseT now lt e) ∧
      ((purge_list parseT now l fileLines lt).changed = false →
        (purge_list parseT now l fileLines lt).fileLines = fileLines ∧
        (purge_list parseT now l fileLines lt).list = l) := by
  intro parseT now l fileLines lt hocc
  refine ⟨?_, ?_, ?_, ?_⟩
  · intro k e h hp
    simp only [purge_list]
    exact purgeGo_keep parseT now lt fileLines l k e h (Or.inl hp)
  · intro k e h
    simp only [purge_list]
    constructor
    · intro hnone
      rcases purgeGo_lookup_cases parseT now lt fileLines l k e h with hsome | ⟨_, hperm, hexp⟩
      · rw [hsome] at hnone; cases hnone
      · exact ⟨hperm, hexp⟩
    · intro ⟨hperm, hexp⟩
      exact purgeGo_removes parseT now lt fileLines l k e h hperm hexp
        (hocc (k, e) (lookupKey_mem h))
  · simp only [purge_list]
    constructor
    · exact purgeGo_changed_sound parseT now lt fileLines l
    · intro ⟨k, e, h, hperm, hexp⟩
      exact purgeGo_changed_complete parseT now lt fileLines l k e h hperm hexp
        (hocc (k, e) (lookupKey_mem h))
  · intro hch
    simp only [purge_list] at hch
    refine ⟨?_, (purgeGo_nochange parseT now lt fileLines l hch).1⟩
    simp [purge_list, hch]

/-- Witness for C5 at concrete inputs: with a lifetime of one day at time
90000, the stale entry old is removed, the permanent stale entry keep and
the fresh entry new survive, and the file is rewritten. -/
theorem c5_purge_policy_witness :
    lookupKey (purge_list pyInt 90000 lC5 fC5 1).list "keep" = some eKeep ∧
    lookupKey (purge_list pyInt 90000 lC5 fC5 1).list "old" = none ∧
    lookupKey (purge_list pyInt 90000 lC5 fC5 1).list "new" ≠ none ∧
    (purge_list pyInt 90000 lC5 fC5 1).changed = true := by
  have hocc : ∀ p ∈ lC5, ∃ line ∈ fC5, purgePattern line = some p.1 := by
    intro p hp
    simp only [lC5, List.mem_cons, List.not_mem_nil, or_false] at hp
    rcases hp with rfl | rfl | rfl
    · exact ⟨"old;;x", by decide, by decide⟩
    · exact ⟨"keep; p ;y", by decide, by decide⟩
    · exact ⟨"new;;z", by decide, by decide⟩
  obtain ⟨ha, hb, hc, _⟩ := c5_purge_policy pyInt 90000 lC5 fC5 1 hocc
  refine ⟨ha "keep" eKeep rfl rfl, ?_, ?_, ?_⟩
  · exact (hb "old" eOld rfl).mpr ⟨rfl, by decide⟩
  · intro hnone
    exact absurd ((hb "new" eNew rfl).mp hnone).2 (by decide)
  · exact hc.mpr ⟨"old", eOld, rfl, rfl, by decide⟩

/-- Elements of a list prefix are elements of the list. -/
theorem mem_of_isPrefixOf : ∀ (l1 l2 : List Nat), l1.isPrefixOf l2 = true →
    ∀ c ∈ l1, c ∈ l2
  | [], _, _, c, hc => by simp at hc
  | a :: as, [], h, c, hc => by simp [List.isPrefixOf] at h
  | a :: as, b :: bs, h, c, hc => by
    simp only [List.isPrefixOf, Bool.and_eq_true, beq_iff_eq] at h
    rcases List.mem_cons.mp hc with rfl | hc2
    · rw [h.1]; exact List.mem_cons_self _ _
    · exact List.mem_cons_of_mem _ (mem_of_isPrefixOf as bs h.2 c hc2)

/-- Elements of a contained run are elements of the buffer. -/
theorem mem_of_containsSeq : ∀ (pat buf : List Nat), containsSeq pat buf = true →
    ∀ c ∈ pat, c ∈ buf
  | pat, [], h, c, hc => by
    simp only [containsSeq, List.isEmpty_iff] at h
    subst h
    simp at hc
  | pat, b :: rest, h, c, hc => by
    simp only [containsSeq, Bool.or_eq_true] at h
    rcases h with h | h
    · exact mem_of_isPrefixOf pat (b :: rest) h c hc
    · exact List.mem_cons_of_mem _ (mem_of_containsSeq pat rest h c hc)

/-- Stripping a two-byte run only drops bytes. -/
theorem mem_removeSeq2 : ∀ (a b : Nat) (l : List Nat) (c : Nat),
    c ∈ removeSeq2 a b l → c ∈ l
  | _, _, [], _, hc => by simp [removeSeq2] at hc
  | _, _, [x], _, hc => by simpa [removeSeq2] using hc
  | a, b, x :: y :: rest, c, hc => by
    simp only [removeSeq2] at hc
    split at hc
    · exact List.mem_cons_of_mem _ (List.mem_cons_of_mem _ (mem_removeSeq2 a b rest c hc))
    · rcases List.mem_cons.mp hc with rfl | hc2
      · exact List.mem_cons_self _ _
      · exact List.mem_cons_of_mem _ (mem_removeSeq2 a b (y :: rest) c hc2)

/-- The buffer after one loop body holds only bytes that were in the old
buffer or were just read. -/
theorem starStep_mem (st : StarState) (ev : StarEvent) :
    ∀ c ∈ (starStep st ev).readBytes, c ∈ st.readBytes ++ ev.bytes.toList := by
  intro c hc
  have hnl : ∀ d ∈ starAfterNl (st.readBytes ++ ev.bytes.toList),
      d ∈ st.readBytes ++ ev.bytes.toList := by
    intro d hd
    unfold starAfterNl at hd
    split at hd
    · simp at hd
    · exact hd
  simp only [starStep] at hc
  split at hc
  · exact hnl c (mem_removeSeq2 16 82 _ c (mem_removeSeq2 16 114 _ c hc))
  · exact hnl c hc

/-- Over a trace carrying no star byte, the loop never brings the byte 42
into the buffer. -/
theorem waitForStarGo_no42 : ∀ (evs : List StarEvent) (st : StarState),
    (∀ c ∈ st.readBytes, c ≠ 42) → evs.all noStarByte = true →
    ∀ c ∈ (waitForStarGo st evs).readBytes, c ≠ 42
  | [], st, hst, _, c, hc => hst c (by simpa [waitForStarGo] using hc)
  | ev :: evs, st, hst, hall, c, hc => by
    simp only [List.all_cons, Bool.and_eq_true] at hall
    simp only [waitForStarGo] at hc
    split at hc
    · refine waitForStarGo_no42 evs (starStep st ev) ?_ hall.2 c hc
      intro c2 hc2
      rcases List.mem_append.mp (starStep_mem st ev c2 hc2) with h | h
      · exact hst c2 h
      · cases hb : ev.bytes with
        | none => rw [hb] at h; simp at h
        | some b =>
          rw [hb] at h
          simp only [Option.toList_some, List.mem_singleton] at h
          subst h
          have hnb := hall.1
          rw [noStarByte, hb] at hnb
          simpa using hnb
    · exact hst c hc

/-- C6: wait_for_star returns false on every trace that never carries the
DTMF star byte, in particular on ring artifacts alone however long they
go on, since ring markers are stripped without satisfying detection; a
ring artifact resets the 10-second window, so star bytes arriving after
27 seconds of absolute time but within 10 seconds of the last ring are
detected; and star bytes arriving only once the deadline has passed are
never read, so detection fails. -/
theorem c6_wait_for_star :
    (∀ (t0 : Int) (evs : List StarEvent), evs.all noStarByte = true →
      wait_for_star t0 evs = false) ∧
    wait_for_star 0 evsStarLate = true ∧
    wait_for_star 0 evsTooLate = false := by
  refine ⟨?_, by decide, by decide⟩
  intro t0 evs hall
  cases hres : wait_for_star t0 evs
  · rfl
  · exfalso
    unfold wait_for_star at hres
    have h42 : (42 : Nat) ∈ (waitForStarGo ⟨[], t0⟩ evs).readBytes :=
      mem_of_containsSeq _ _ hres 42 (by decide)
    exact waitForStarGo_no42 evs ⟨[], t0⟩ (by simp) hall 42 h42 rfl

/-- Witness for C6 at a concrete input: a trace of ring artifacts and
timeouts spanning more than 10 seconds carries no star byte and yields
false. -/
theorem c6_wait_for_star_witness :
    evsRingsOnly.all noStarByte = true ∧ wait_for_star 0 evsRingsOnly = false :=
  ⟨by decide, c6_wait_for_star.1 0 evsRingsOnly (by decide)⟩

/-- C8 is refuted at the empty caller-ID number: its compilation succeeds
(re.compile of the empty pattern is valid), yet the if-regex guard of
line 207 skips the insertion, nothing is appended, and the outcome stays
no match, against the claim that every successful compilation inserts an
entry keyed by the raw number. -/
theorem c8_empty_number_counterexample :
    (cmpAll "").isSome = true ∧
    add_block_entry cmpAll [] "" "2021-01-01 00:00" = ([], [], "no match") :=
  ⟨rfl, rfl⟩

/-- C8 amended: a star-key addition inserts the entry (timestamp now,
count 0, non-permanent, fixed note) keyed by the raw number and appends
one .dat line exactly when the number compiles and is non-empty; on a
compile failure, or for the empty number, nothing is mutated and the
outcome stays no match. -/
theorem c8_star_add_amended :
    ∀ (compile : String → Option Matcher) (blocklist : PList) (number nowStr : String),
      (compile number = none →
        add_block_entry compile blocklist number nowStr = (blocklist, [], "no match")) ∧
      (number = "" →
        add_block_entry compile blocklist number nowStr = (blocklist, [], "no match")) ∧
      (∀ m, compile number = some m → number ≠ "" →
        add_block_entry compile blocklist number nowStr =
          (dictInsert blocklist number
            { regex := m, permanent := false, note := "added by user * key",
              timestamp := nowStr, count := 0 },
           [number ++ ";;added by user * key"],
           "added to block by user * key")) := by
  intro compile blocklist number nowStr
  refine ⟨?_, ?_, ?_⟩
  · intro hc
    simp [add_block_entry, hc]
  · intro hnum
    subst hnum
    cases hc : compile "" <;> simp [add_block_entry, hc]
  · intro m hc hnum
    simp [add_block_entry, hc, hnum]

/-- Witness for the amended C8 at concrete inputs: the unbalanced pattern
( fails to compile and mutates nothing, while a plain number is inserted
and appended. -/
theorem c8_star_add_amended_witness :
    add_block_entry cmpOpen [] "(" "t" = ([], [], "no match") ∧
    add_block_entry cmpOpen [] "5551234" "t" =
      (dictInsert [] "5551234"
        { regex := reMatchLit "5551234", permanent := false, note := "added by user * key",
          timestamp := "t", count := 0 },
       ["5551234;;added by user * key"], "added to block by user * key") := by
  constructor
  · exact (c8_star_add_amended cmpOpen [] "(" "t").1 rfl
  · exact (c8_star_add_amended cmpOpen [] "5551234" "t").2.2 (reMatchLit "5551234") rfl
      (by decide)

/-- A member of a dict after an assignment is an old member or the newly
assigned pair. -/
theorem mem_dictInsert {l : PList} {k : String} {e : Entry} {p : String × Entry}
    (h : p ∈ dictInsert l k e) : p ∈ l ∨ p = (k, e) := by
  unfold dictInsert at h
  split at h
  · rcases List.mem_map.mp h with ⟨q, hq, hqe⟩
    by_cases hqk : q.1 = k
    · rw [if_pos hqk] at hqe
      right; exact hqe.symm
    · rw [if_neg hqk] at hqe
      left; exact hqe ▸ hq
  · rcases List.mem_append.mp h with h1 | h1
    · left; exact h1
    · right; simpa using h1

/-- A parsed .dat line yields an entry stamped with the load time, count
zero and the compiled form of its own key. -/
theorem parseDatLine_sound (compile : String → Option Matcher) (now line : String)
    (k : String) (e : Entry) (h : parseDatLine compile now line = some (k, e)) :
    e.timestamp = now ∧ e.count = 0 ∧ compile k = some e.regex := by
  simp only [parseDatLine] at h
  split at h
  · cases h
  · split at h
    · cases h
    · rename_i rx0 rest
      split at h
      · cases h
      · split at h
        · cases h
        · rename_i m hcmp
          injection h with h2
          injection h2 with hk he
          subst hk
          subst he
          exact ⟨rfl, rfl, hcmp⟩

/-- Every entry of the dict built by the .dat loop over a fresh-stamped
initial dict is fresh-stamped and carries its own compiled pattern. -/
theorem readDatGo_fresh (compile : String → Option Matcher) (now : String) :
    ∀ (lines : List String) (l : PList),
      (∀ k e, (k, e) ∈ l → e.timestamp = now ∧ e.count = 0 ∧ compile k = some e.regex) →
      ∀ k e, (k, e) ∈ readDatGo compile now l lines →
        e.timestamp = now ∧ e.count = 0 ∧ compile k = some e.regex
  | [], l, hl, k, e, h => hl k e (by simpa [readDatGo] using h)
  | line :: rest, l, hl, k, e, h => by
    simp only [readDatGo] at h
    cases hp : parseDatLine compile now line with
    | none =>
      rw [hp] at h
      exact readDatGo_fresh compile now rest l hl k e h
    | some ke =>
      rw [hp] at h
      refine readDatGo_fresh compile now rest _ ?_ k e h
      intro k3 e3 hm
      rcases mem_dictInsert hm with hm2 | hm2
      · exact hl k3 e3 hm2
      · obtain ⟨k2, e2⟩ := ke
        have hs := parseDatLine_sound compile now line k2 e2 hp
        injection hm2 with hk3 he3
        rw [hk3, he3]
        exact hs

/-- Lookup of a key other than the updated one is unchanged by the
match-history field update. -/
theorem lookupKey_dictUpdateTC_other : ∀ (l : PList) (rx ts : String) (c : Int) (k : String),
    ¬ rx = k → lookupKey (dictUpdateTC l rx ts c) k = lookupKey l k
  | [], _, _, _, _, _ => rfl
  | p :: rest, rx, ts, c, k, h => by
    have ih := lookupKey_dictUpdateTC_other rest rx ts c k h
    simp only [dictUpdateTC, List.map] at ih ⊢
    by_cases hprx : p.1 = rx
    · rw [if_pos hprx]
      simp only [lookupKey]
      by_cases hpk : p.1 = k
      · exfalso; exact h (by rw [← hprx]; exact hpk)
      · rw [if_neg hpk, if_neg hpk]; exact ih
    · rw [if_neg hprx]
      simp only [lookupKey]
      by_cases hpk : p.1 = k
      · rw [if_pos hpk, if_pos hpk]
      · rw [if_neg hpk, if_neg hpk]; exact ih

/-- A history line naming some other pattern leaves the lookup of a key
unchanged. -/
theorem applyMatchLine_other (l : PList) (line : String) (k : String)
    (h : matchLineKey line ≠ some k) :
    lookupKey (applyMatchLine l line) k = lookupKey l k := by
  rcases hsp : pySplitN ';' 3 line with _ | ⟨ts, _ | ⟨cnt, _ | ⟨rx, _ | ⟨x, xs⟩⟩⟩⟩
  · simp [applyMatchLine, hsp]
  · simp [applyMatchLine, hsp]
  · simp [applyMatchLine, hsp]
  · have hrx : ¬ rx = k := by
      simp only [matchLineKey, hsp] at h
      simpa using h
    simp only [applyMatchLine, hsp]
    split
    · exact lookupKey_dictUpdateTC_other l rx ts (pyInt cnt) k hrx
    · rfl
  · simp [applyMatchLine, hsp]

/-- When no history line names a key, the whole overlay leaves its lookup
unchanged. -/
theorem applyMatchGo_other : ∀ (matchLines : List String) (l : PList) (k : String),
    (∀ line ∈ matchLines, matchLineKey line ≠ some k) →
    lookupKey (applyMatchGo l matchLines) k = lookupKey l k
  | [], _, _, _ => rfl
  | line :: rest, l, k, h => by
    simp only [applyMatchGo]
    rw [applyMatchGo_other rest _ k (fun l2 hl2 => h l2 (List.mem_cons_of_mem _ hl2))]
    exact applyMatchLine_other l line k (h line (List.mem_cons_self _ _))

/-- C10: an entry loaded from the .dat file with no line of the history
file naming its pattern keeps the load wall-clock time as its timestamp
and count 0, and such a never-matched entry is not purged at any time
within the lifetime of the load instant, so each reload restarts its
purge clock. -/
theorem c10_historyless_entry_fresh :
    ∀ (compile : String → Option Matcher) (now : String) (datLines matchLines : List String)
      (k : String) (e : Entry),
      lookupKey (read_list_dat compile now datLines) k = some e →
      (∀ line ∈ matchLines, matchLineKey line ≠ some k) →
      e.timestamp = now ∧ e.count = 0 ∧
      lookupKey (read_list compile now datLines matchLines) k = some e ∧
      (∀ (parseT : String → Int) (tnow lt : Int) (fileLines : List String),
        ¬ expiredEntry parseT tnow lt e →
        lookupKey (purge_list parseT tnow (read_list compile now datLines matchLines) fileLines lt).list
          k = some e) := by
  intro compile now datLines matchLines k e h hno
  have hfresh := readDatGo_fresh compile now datLines []
    (by intro k2 e2 h2; simp at h2) k e (lookupKey_mem h)
  have hover : lookupKey (read_list compile now datLines matchLines) k = some e := by
    unfold read_list
    rw [applyMatchGo_other matchLines _ k hno]
    exact h
  refine ⟨hfresh.1, hfresh.2.1, hover, ?_⟩
  intro parseT tnow lt fileLines hnexp
  simp only [purge_list]
  exact purgeGo_keep parseT tnow lt fileLines _ k e hover (Or.inr hnexp)

/-- Witness for C10 at concrete inputs: the entry of the .dat line
num;;n, loaded at time 7 with a history file naming only another pattern,
keeps timestamp 7 and count 0 and survives a purge run shortly after. -/
theorem c10_historyless_entry_fresh_witness :
    eNum.timestamp = "7" ∧ eNum.count = 0 ∧
    lookupKey (read_list cmpAll "7" ["num;;n"] ["1;2;other"]) "num" = some eNum ∧
    lookupKey (purge_list pyInt 5 (read_list cmpAll "7" ["num;;n"] ["1;2;other"])
      ["num;;n"] 1).list "num" = some eNum := by
  have hbase : lookupKey (read_list_dat cmpAll "7" ["num;;n"]) "num" = some eNum := rfl
  have hno : ∀ line ∈ ["1;2;other"], matchLineKey line ≠ some "num" := by
    intro line hl
    simp only [List.mem_singleton] at hl
    subst hl
    decide
  obtain ⟨h1, h2, h3, h4⟩ :=
    c10_historyless_entry_fresh cmpAll "7" ["num;;n"] ["1;2;other"] "num" eNum hbase hno
  exact ⟨h1, h2, h3, h4 pyInt 5 1 ["num;;n"] (by decide)⟩

/-- A dict whose keys all occur in a well-formed dict is well-formed. -/
theorem listWF_of_keys {compile : String → Option Matcher} {l l2 : PList}
    (hsub : ∀ p ∈ l2, ∃ e0, (p.1, e0) ∈ l) (hl : listWF compile l) : listWF compile l2 := by
  intro k e h
  rcases hsub (k, e) h with ⟨e0, h0⟩
  exact hl k e0 h0

/-- Keys of the dict after a match scan all occur in the dict before. -/
theorem match_list_keys : ∀ (l : PList) (s ts : String) (p : String × Entry),
    p ∈ (match_list l s ts).2 → ∃ e0, (p.1, e0) ∈ l
  | [], s, ts, p, h => by simp [match_list] at h
  | (k, e) :: rest, s, ts, p, h => by
    by_cases hm : e.regex s
    · simp only [match_list, hm, if_true, List.mem_cons] at h
      rcases h with rfl | h
      · exact ⟨e, List.mem_cons_self _ _⟩
      · exact ⟨p.2, List.mem_cons_of_mem _ (by simpa using h)⟩
    · simp only [Bool.not_eq_true] at hm
      simp only [match_list, hm, Bool.false_eq_true, if_false, List.mem_cons] at h
      rcases h with rfl | h
      · exact ⟨e, List.mem_cons_self _ _⟩
      · rcases match_list_keys rest s ts p h with ⟨e0, h0⟩
        exact ⟨e0, List.mem_cons_of_mem _ h0⟩

/-- Keys of the dict after a field update all occur in the dict before. -/
theorem dictUpdateTC_keys (l : PList) (rx ts : String) (c : Int) (p : String × Entry)
    (h : p ∈ dictUpdateTC l rx ts c) : ∃ e0, (p.1, e0) ∈ l := by
  unfold dictUpdateTC at h
  rcases List.mem_map.mp h with ⟨q, hq, hqe⟩
  by_cases hqk : q.1 = rx
  · rw [if_pos hqk] at hqe
    refine ⟨q.2, ?_⟩
    rw [← hqe]
    simpa using hq
  · rw [if_neg hqk] at hqe
    subst hqe
    exact ⟨q.2, by simpa using hq⟩

/-- Keys of the dict after one overlay line all occur in the dict before. -/
theorem applyMatchLine_keys (l : PList) (line : String) (p : String × Entry)
    (h : p ∈ applyMatchLine l line) : ∃ e0, (p.1, e0) ∈ l := by
  unfold applyMatchLine at h
  split at h
  · split at h
    · exact dictUpdateTC_keys l _ _ _ p h
    · exact ⟨p.2, by simpa using h⟩
  · exact ⟨p.2, by simpa using h⟩

/-- Keys of the dict after the whole overlay all occur in the dict before. -/
theorem applyMatchGo_keys : ∀ (matchLines : List String) (l : PList) (p : String × Entry),
    p ∈ applyMatchGo l matchLines → ∃ e0, (p.1, e0) ∈ l
  | [], l, p, h => ⟨p.2, by simpa using h⟩
  | line :: rest, l, p, h => by
    simp only [applyMatchGo] at h
    rcases applyMatchGo_keys rest _ p h with ⟨e1, h1⟩
    rcases applyMatchLine_keys l line (p.1, e1) h1 with ⟨e0, h0⟩
    exact ⟨e0, h0⟩

/-- The purge loop only ever deletes entries. -/
theorem purgeGo_subset (parseT : String → Int) (now lt : Int) :
    ∀ (lines : List String) (l : PList) (p : String × Entry),
      p ∈ (purgeGo parseT now lt l lines).1 → p ∈ l
  | [], l, p, h => by simpa [purgeGo] using h
  | line :: rest, l, p, h => by
    rcases purgeStep_cases parseT now lt l line with hs | ⟨rx, e2, _, _, _, _, hs⟩
    · simp only [purgeGo, hs] at h
      exact purgeGo_subset parseT now lt rest l p h
    · simp only [purgeGo, hs] at h
      exact List.mem_of_mem_filter (purgeGo_subset parseT now lt rest _ p h)

/-- C9: every entry of an in-memory list has a pattern text that
compiles: the load drops uncompilable .dat lines so the loaded list is
well-formed, and the invariant is preserved by match scans, by user
star-key additions (whose failing candidates are rejected before
insertion), and by purge; a parsed .dat line always carries a compiling
pattern. -/
theorem c9_compiled_pattern_invariant :
    ∀ (compile : String → Option Matcher),
      (∀ now datLines matchLines, listWF compile (read_list compile now datLines matchLines)) ∧
      (∀ (l : PList) (s ts : String), listWF compile l → listWF compile (match_list l s ts).2) ∧
      (∀ (l : PList) (number nowStr : String), listWF compile l →
        listWF compile (add_block_entry compile l number nowStr).1) ∧
      (∀ (parseT : String → Int) (tnow : Int) (l : PList) (lines : List String) (lt : Int),
        listWF compile l → listWF compile (purge_list parseT tnow l lines lt).list) ∧
      (∀ (now line k : String) (e : Entry),
        parseDatLine compile now line = some (k, e) → ∃ m, compile k = some m) := by
  intro compile
  refine ⟨?_, ?_, ?_, ?_, ?_⟩
  · intro now datLines matchLines
    have hbase : listWF compile (read_list_dat compile now datLines) := by
      intro k e h
      exact ⟨e.regex,
        (readDatGo_fresh compile now datLines [] (by intro k2 e2 h2; simp at h2) k e h).2.2⟩
    exact listWF_of_keys (fun p hp => applyMatchGo_keys matchLines _ p hp) hbase
  · intro l s ts hl
    exact listWF_of_keys (fun p hp => match_list_keys l s ts p hp) hl
  · intro l number nowStr hl
    intro k e h
    cases hc : compile number with
    | none =>
      simp only [add_block_entry, hc] at h
      exact hl k e h
    | some m =>
      simp only [add_block_entry, hc] at h
      by_cases hnum : number = ""
      · rw [if_pos hnum] at h
        exact hl k e h
      · rw [if_neg hnum] at h
        rcases mem_dictInsert h with h2 | h2
        · exact hl k e h2
        · injection h2 with hk he
          subst hk
          exact ⟨m, hc⟩
  · intro parseT tnow l lines lt hl
    intro k e h
    exact hl k e (purgeGo_subset parseT tnow lt lines l (k, e) (by simpa [purge_list] using h))
  · intro now line k e h
    exact ⟨e.regex, (parseDatLine_sound compile now line k e h).2.2⟩

/-- Witness for C9 at concrete inputs: a load with one bad and one good
line is well-formed, and a match scan, a star-key addition and a purge on
a concrete well-formed list stay well-formed. -/
theorem c9_compiled_pattern_invariant_witness :
    listWF cmpOpen (read_list cmpOpen "7" ["(;;bad", "num;;n"] []) ∧
    listWF cmpOpen (match_list [("num", eNum)] "NUM5" "t2").2 ∧
    listWF cmpOpen (add_block_entry cmpOpen [("num", eNum)] "77" "t3").1 ∧
    listWF cmpOpen (purge_list pyInt 5 [("num", eNum)] ["num;;n"] 1).list := by
  have hWF : listWF cmpOpen [("num", eNum)] := by
    intro k e h
    simp only [List.mem_singleton] at h
    injection h with hk he
    subst hk
    exact ⟨reMatchLit "num", rfl⟩
  obtain ⟨h1, h2, h3, h4, _⟩ := c9_compiled_pattern_invariant cmpOpen
  exact ⟨h1 "7" ["(;;bad", "num;;n"] [], h2 [("num", eNum)] "NUM5" "t2" hWF,
    h3 [("num", eNum)] "77" "t3" hWF, h4 pyInt 5 [("num", eNum)] ["num;;n"] 1 hWF⟩

end Jcblock
